import Mathlib

/-!
Shallow embedding of the identity-resolution and rate-limiting subsystem of
the elevasionx data-warehouse backend, together with proofs checking the
specification's claims against it.

Conventions:
* Wall-clock instants (`time.time()` values, sorted-set scores) are embedded
  at whole-second granularity as integers `ℤ`; Python's `int()` on them is
  then the identity, kept visible as `pyInt`. No claim below depends on
  sub-second timing, and the 60-second sliding-window arithmetic is exact.
* Fallible Python code is embedded in `Except PyError`; an uncaught Python
  exception is an `Except.error`.
* Database rows are plain Lean structures; a session is a `DB` value and a
  committed mutation returns the updated `DB`.
* The external bcrypt library is idealized: a well-formed stored hash is
  the tag "$2b$12$" followed by an (ideal, collision-free) digest which the
  model takes to be the hashed secret itself; `bcrypt.checkpw` against a
  well-formed hash is exact-match verification, and against a string that
  is not a bcrypt hash it raises `ValueError` (as the pyca/bcrypt library
  does on a malformed salt).
* The SQLAlchemy column name `key_prefix` is rendered as `keyPrefix`.
-/

/-- A Python exception escaping one of the embedded functions. -/
inductive PyError
  | valueError
  | connectionError
  | multipleResults
deriving DecidableEq, Repr

/-- Scheme tag of a well-formed bcrypt hash in the idealized bcrypt model. -/
def BCRYPT_TAG : String := "$2b$12$"

/-- Model of `bcrypt.hashpw(secret, bcrypt.gensalt())`: tag followed by the
(ideal) digest, which the model identifies with the secret. -/
def bcryptHashpw (secret : String) : String := BCRYPT_TAG ++ secret

/-- Model of `bcrypt.checkpw(candidate, stored)`: exact-match verification on a
well-formed hash, `ValueError` on a string that is not a bcrypt hash. -/
def bcryptCheckpw (candidate stored : String) : Except PyError Bool :=
  if stored.1.take 7 = BCRYPT_TAG.1 then .ok (candidate == (⟨stored.1.drop 7⟩ : String))
  else .error .valueError

/-- `app.models.api_key.AccessLevel` (read/write/admin). -/
inductive AccessLevel
  | read
  | write
  | admin
deriving DecidableEq, Repr

/-- `app.models.api_key.APIKey` row. `rate_limit` is the Integer column
`rate_limit` (requests per minute); `keyPrefix` renders the column
`key_prefix`. -/
structure APIKey where
  id : Nat
  name : String
  keyPrefix : String
  key_hash : String
  access_level : String
  rate_limit : Int
  user_id : Nat
  is_active : Bool
  last_used_at : Option ℤ
deriving DecidableEq, Repr

/-- The slice of `app.models.user.User` that authentication reads. -/
structure UserRec where
  id : Nat
  is_active : Bool
deriving DecidableEq, Repr

/-- The relational store as seen by this subsystem. -/
structure DB where
  apiKeys : List APIKey
  users : List UserRec
deriving DecidableEq, Repr

/-- SQLAlchemy `Result.scalar_one_or_none`: `none` on no row, the row when
unique, `MultipleResultsFound` otherwise. -/
def scalar_one_or_none {α : Type} : List α → Except PyError (Option α)
  | [] => .ok none
  | [a] => .ok (some a)
  | _ => .error .multipleResults

/-- `app.core.api_key.API_KEY_PREFIX`. -/
def API_KEY_PREFIX : String := "ldwsk-"

/-- `app.core.api_key.API_KEY_PREFIX_LENGTH`. -/
def API_KEY_PREFIX_LENGTH : Nat := 12

/-- `app.core.api_key.generate_api_key`, with the 32 characters that
`secrets.token_urlsafe(24)` draws passed in as `randomPart`.
Returns `(full_key, key prefix, key hash)`. -/
def generate_api_key (randomPart : String) : String × String × String :=
  let full_key := API_KEY_PREFIX ++ randomPart
  let pfx := full_key.take 12
  let key_hash := bcryptHashpw full_key
  (full_key, pfx, key_hash)

/-- `app.core.api_key.verify_api_key`: delegates to `bcrypt.checkpw` with no
exception handling of its own. -/
def verify_api_key (plain_key key_hash : String) : Except PyError Bool :=
  bcryptCheckpw plain_key key_hash

/-- `app.core.security.verify_password`: the same uncaught `bcrypt.checkpw`
call. -/
def verify_password (plain hashed : String) : Except PyError Bool :=
  bcryptCheckpw plain hashed

/-- The `level_hierarchy` dict of `app.core.api_key.has_access_level`. -/
def levelRank : AccessLevel → Nat
  | .read => 1
  | .write => 2
  | .admin => 3

/-- `app.core.api_key.has_access_level`:
`level_hierarchy[key_level] >= level_hierarchy[required_level]`. -/
def has_access_level (key_level required_level : AccessLevel) : Bool :=
  decide (levelRank required_level ≤ levelRank key_level)

/-- `app.core.api_key.get_access_level`: parse the string, `READ` on
`ValueError`. -/
def get_access_level (level_str : String) : AccessLevel :=
  if level_str.toLower = "read" then .read
  else if level_str.toLower = "write" then .write
  else if level_str.toLower = "admin" then .admin
  else .read

/-- `app.core.api_key.validate_api_key` at database session `db` and wall
clock `now`: prefix lookup of an active row, hash verification, active-user
lookup, `last_used_at` refresh. -/
def validate_api_key (db : DB) (api_key : String) (now : ℤ) :
    Except PyError (Option (UserRec × APIKey) × DB) := do
  let pfx := if api_key.length ≥ 12 then api_key.take 12 else ""
  let keyRows := db.apiKeys.filter (fun k => k.keyPrefix == pfx && k.is_active)
  match ← scalar_one_or_none keyRows with
  | none => return (none, db)
  | some k =>
    let ok ← verify_api_key api_key k.key_hash
    if !ok then
      return (none, db)
    else
      let userRows := db.users.filter (fun u => u.id == k.user_id && u.is_active)
      match ← scalar_one_or_none userRows with
      | none => return (none, db)
      | some u =>
        let k2 := { k with last_used_at := some now }
        let db2 := { db with apiKeys := db.apiKeys.map (fun r => if r == k then k2 else r) }
        return (some (u, k2), db2)

/-- Outcome of `app.api.deps.get_current_auth`: either an authenticated user
(with the `APIKey` row when API-key authentication was used, `none` for JWT)
or the 401 `credentials_exception`. -/
inductive AuthResult
  | success (user : UserRec) (apiKey : Option APIKey)
  | unauthorized
deriving DecidableEq, Repr

/-- Python truthiness of an optional header value (absent or empty is falsy). -/
def truthy : Option String → Bool
  | some s => !(s == "")
  | none => false

/-- `app.api.deps.get_current_user_jwt`. The external `jose.jwt.decode`
against the service signing key is abstracted as `jwtDecodeSub`, returning
the token's `sub` claim on success and `none` on `JWTError` or missing
subject. -/
def get_current_user_jwt (jwtDecodeSub : String → Option Nat) (db : DB)
    (token : String) : Option UserRec :=
  match jwtDecodeSub token with
  | none => none
  | some uid =>
    match db.users.find? (fun u => u.id == uid) with
    | none => none
    | some u => if u.is_active then some u else none

/-- `app.api.deps.get_current_auth`: API key first, JWT only when no API-key
header is present, 401 otherwise. -/
def get_current_auth (jwtDecodeSub : String → Option Nat) (db : DB)
    (token api_key : Option String) (now : ℤ) :
    Except PyError (AuthResult × DB) := do
  if truthy api_key then
    match ← validate_api_key db (api_key.getD "") now with
    | (some (u, keyObj), db2) => return (.success u (some keyObj), db2)
    | (none, db2) => return (.unauthorized, db2)
  else if truthy token then
    match get_current_user_jwt jwtDecodeSub db (token.getD "") with
    | some u => return (.success u none, db)
    | none => return (.unauthorized, db)
  else
    return (.unauthorized, db)

/-- Outcome of the guard built by `app.api.deps.require_access`: the user, or
the 403 `Insufficient access level` rejection naming the required level. -/
inductive GateResult
  | granted (user : UserRec)
  | forbidden (required : AccessLevel)
deriving DecidableEq, Repr

/-- Body of `check_access` inside `app.api.deps.require_access`, applied to an
already-authenticated `(user, api_key)` pair: JWT (no API key) gets full
access, an API key is checked against its configured level. -/
def require_access_check (level : AccessLevel) (user : UserRec)
    (apiKey : Option APIKey) : GateResult :=
  match apiKey with
  | none => .granted user
  | some k =>
    if has_access_level (get_access_level k.access_level) level then .granted user
    else .forbidden level

/-- The rate-limit related settings of `app.core.config.Settings`. -/
structure Settings where
  RATE_LIMIT_ENABLED : Bool
  RATE_LIMIT_DEFAULT : Int
deriving DecidableEq, Repr

/-- An established Redis connection: per-key sorted sets (scores of members
`str(t)`, one member per distinct timestamp) and plain string keys (the
`apikey:config:*` cache). `healthy = false` means every round trip on the
connection raises. The 60-second key TTL set by `pipe.expire` only makes idle
keys vanish no later than the window filter would empty them; it is not
modeled separately. -/
structure RedisConn where
  healthy : Bool
  zsets : String → List ℤ
  strings : String → Option String

/-- The request headers and peer data the middleware reads. -/
structure Request where
  apiKeyHeader : Option String
  authHeader : Option String
  forwardedFor : Option String
  clientHost : Option String
deriving DecidableEq, Repr

/-- Python `int()` on a `time.time()` value: with instants modeled as whole
seconds this is the identity; it marks the truncation sites of the source. -/
def pyInt (t : ℤ) : Int := t

/-- `ZREMRANGEBYSCORE key lo hi`: drop the members with score in `[lo, hi]`. -/
def zremrangebyscore (l : List ℤ) (lo hi : ℤ) : List ℤ :=
  l.filter (fun t => !(lo ≤ t && t ≤ hi))

/-- `ZADD key {str(t): t}`: a member is identified by its timestamp, so adding
an already-present timestamp leaves the set unchanged. -/
def zadd (l : List ℤ) (t : ℤ) : List ℤ :=
  if t ∈ l then l else l ++ [t]

/-- `ZREM key str(t)`. -/
def zrem (l : List ℤ) (t : ℤ) : List ℤ :=
  l.filter (fun x => !(x == t))

/-- `ZRANGE key 0 0 WITHSCORES`: the smallest score, if any. -/
def zsetMin : List ℤ → Option ℤ
  | [] => none
  | t :: ts =>
    match zsetMin ts with
    | none => some t
    | some m => some (min t m)

/-- Value of a decimal digit character. -/
def digitVal (c : Char) : Option Nat :=
  let n := c.toNat
  if 48 ≤ n ∧ n ≤ 57 then some (n - 48) else none

/-- Accumulate decimal digits, `none` on the first non-digit. -/
def pyParseIntCore : List Char → Nat → Option Nat
  | [], acc => some acc
  | c :: cs, acc =>
    match digitVal c with
    | none => none
    | some d => pyParseIntCore cs (acc * 10 + d)

/-- Model of Python `int(str)` on optionally-signed decimal literals; any
other input is `ValueError`, rendered `none` (the middleware's cache-lookup
wraps the call in a bare `except`). -/
def pyParseInt (s : String) : Option Int :=
  match s.data with
  | [] => none
  | '-' :: cs => if cs = [] then none else (pyParseIntCore cs 0).map (fun n => -(n : Int))
  | cs => (pyParseIntCore cs 0).map (fun n => (n : Int))

/-- `RateLimitMiddleware.get_rate_limit_key`, non-API-key branch: bearer-token
hash (external `hashlib.sha256(...).hexdigest()[:16]` abstracted as `sha`),
then first hop of `X-Forwarded-For`, then peer address. -/
def get_rate_limit_key_fallback (sha : String → String) (req : Request) :
    String × String :=
  let auth := (req.authHeader.getD "")
  if auth.startsWith "Bearer " then
    let key_id := "jwt:" ++ sha (auth.drop 7)
    ("ratelimit:" ++ key_id, key_id)
  else
    match req.forwardedFor with
    | some fwd =>
      if fwd ≠ "" then
        let key_id := ((fwd.splitOn ",").headD "").trim
        ("ratelimit:" ++ key_id, key_id)
      else
        let key_id := "ip:" ++ (req.clientHost.getD "unknown")
        ("ratelimit:" ++ key_id, key_id)
    | none =>
      let key_id := "ip:" ++ (req.clientHost.getD "unknown")
      ("ratelimit:" ++ key_id, key_id)

/-- `RateLimitMiddleware.get_rate_limit_key`: `(redis_key, window key id)` for
the request's identity. -/
def get_rate_limit_key (sha : String → String) (req : Request) :
    String × String :=
  match req.apiKeyHeader with
  | some api_key =>
    if api_key ≠ "" then
      let key_id := if api_key.length ≥ 12 then api_key.take 12 else api_key
      ("ratelimit:apikey:" ++ key_id, key_id)
    else get_rate_limit_key_fallback sha req
  | none => get_rate_limit_key_fallback sha req

/-- Result quadruple of `RateLimitMiddleware.check_rate_limit`:
`(allowed, remaining, limit, reset_time)`. -/
structure RateCheckResult where
  allowed : Bool
  remaining : Int
  limit : Int
  reset_time : Int
deriving DecidableEq, Repr

/-- `RateLimitMiddleware.check_rate_limit` at wall clock `now`. With no
connection (`redis is None`) the request is allowed with the full quota. On an
established connection the pipelined remove-expired / count / add / set-expiry
block runs as one atomic step against the keyed sorted set; the count compared
against the limit is taken before the current timestamp is added. A round trip
on an unhealthy connection raises, and nothing here catches it. -/
def check_rate_limit (sha : String → String) (redis : Option RedisConn)
    (req : Request) (rate_limit : Int) (now : ℤ) :
    Except PyError (RateCheckResult × Option RedisConn) :=
  match redis with
  | none => .ok (⟨true, rate_limit, rate_limit, pyInt now + 60⟩, none)
  | some conn =>
    if !conn.healthy then .error .connectionError
    else
      let redis_key := (get_rate_limit_key sha req).1
      let window_start := now - 60
      let afterRemove := zremrangebyscore (conn.zsets redis_key) 0 window_start
      let current_count : Int := afterRemove.length
      let afterAdd := zadd afterRemove now
      if current_count > rate_limit then
        let afterRem := zrem afterAdd now
        let reset_time :=
          match zsetMin afterRem with
          | some oldest => pyInt oldest + 60
          | none => pyInt now + 60
        .ok (⟨false, 0, rate_limit, reset_time⟩,
          some { conn with zsets := fun k => if k = redis_key then afterRem else conn.zsets k })
      else
        let reset_time :=
          match zsetMin afterAdd with
          | some oldest => pyInt oldest + 60
          | none => pyInt now + 60
        .ok (⟨true, rate_limit - current_count, rate_limit, reset_time⟩,
          some { conn with zsets := fun k => if k = redis_key then afterAdd else conn.zsets k })

/-- Log levels of `app.core.logging`. -/
inductive LogLevel
  | info
  | warning
  | error
deriving DecidableEq, Repr

/-- `RateLimitMiddleware.startup`: connect and ping; on failure log at error
level and leave `self.redis = None`. Returns the connection slot and the level
of the log line emitted. -/
def startup (connectOk : Bool) (conn : RedisConn) :
    Option RedisConn × LogLevel :=
  if connectOk then (some conn, .info) else (none, .error)

/-- Outcome of `RateLimitMiddleware.dispatch` for one request. -/
inductive DispatchOutcome
  | plain (status : Int)
  | response (status : Int) (limit remaining : Int) (reset : Int)
  | rateLimited (retryAfter : Int)
  | serverError (e : PyError)
deriving DecidableEq, Repr

/-- `RateLimitMiddleware.dispatch` at wall clock `now`, with `redis` the
connection slot after the lazy `startup` call and `upstream` the status code
`call_next` would return. The quota is the service default unless an API-key
header is present, the connection is up, and the `apikey:config:<prefix>`
cache key holds a parsable value (the lookup is wrapped in a bare
`except: pass`, so a failed round trip or parse leaves the default). A 429
carries `Retry-After`; any other completed request carries the three
`X-RateLimit-*` headers. An exception escaping `check_rate_limit` is not
handled here. -/
def dispatch (sha : String → String) (st : Settings) (redis : Option RedisConn)
    (req : Request) (now : ℤ) (upstream : Int) :
    DispatchOutcome × Option RedisConn :=
  if !st.RATE_LIMIT_ENABLED then (.plain upstream, redis)
  else
    let rate_limit : Int :=
      match req.apiKeyHeader, redis with
      | some api_key, some conn =>
        if api_key ≠ "" && conn.healthy then
          match conn.strings ("apikey:config:" ++ api_key.take 12) with
          | some cached =>
            if cached ≠ "" then
              match pyParseInt cached with
              | some v => v
              | none => st.RATE_LIMIT_DEFAULT
            else st.RATE_LIMIT_DEFAULT
          | none => st.RATE_LIMIT_DEFAULT
        else st.RATE_LIMIT_DEFAULT
      | _, _ => st.RATE_LIMIT_DEFAULT
    match check_rate_limit sha redis req rate_limit now with
    | .error e => (.serverError e, redis)
    | .ok (res, redis2) =>
      if !res.allowed then
        (.rateLimited (res.reset_time - pyInt now), redis2)
      else
        (.response upstream res.limit res.remaining res.reset_time, redis2)

/-- A run of sequential `check_rate_limit` calls for one request identity, at
the given wall-clock instants, threading the Redis state. -/
def runChecks (sha : String → String) (redis : Option RedisConn)
    (req : Request) (rate_limit : Int) :
    List ℤ → List (Except PyError RateCheckResult) × Option RedisConn
  | [] => ([], redis)
  | t :: ts =>
    match check_rate_limit sha redis req rate_limit t with
    | .error e =>
      let (rest, r2) := runChecks sha redis req rate_limit ts
      (.error e :: rest, r2)
    | .ok (res, redis2) =>
      let (rest, r2) := runChecks sha redis2 req rate_limit ts
      (.ok res :: rest, r2)

/-- The `APIKeyCreated` response schema returned by the regenerate endpoint
(the one place the full key is ever returned). -/
structure APIKeyCreated where
  id : Nat
  name : String
  keyPrefix : String
  access_level : String
  rate_limit : Int
  is_active : Bool
  last_used_at : Option ℤ
  key : String
deriving DecidableEq, Repr

/-- `app.api.v1.endpoints.api_keys.regenerate_api_key` (body after the
admin-access guard), with the fresh randomness passed as `randomPart`:
look up the caller's key by id, 404 (`none`) if absent, else overwrite
`key_prefix`/`key_hash`, force `is_active := true`, commit, and return the
new full key once. -/
def regenerate_api_key (db : DB) (current_user : UserRec) (api_key_id : Nat)
    (randomPart : String) : Except PyError (Option (APIKeyCreated × DB)) := do
  let rows := db.apiKeys.filter (fun k => k.id == api_key_id && k.user_id == current_user.id)
  match ← scalar_one_or_none rows with
  | none => return none
  | some k =>
    let gen := generate_api_key randomPart
    let k2 := { k with keyPrefix := gen.2.1, key_hash := gen.2.2, is_active := true }
    let db2 := { db with apiKeys := db.apiKeys.map (fun r => if r == k then k2 else r) }
    return some
      (⟨k2.id, k2.name, k2.keyPrefix, k2.access_level, k2.rate_limit,
        k2.is_active, k2.last_used_at, gen.1⟩, db2)

/-- `app.api.v1.endpoints.api_keys.delete_api_key` (body after the guard):
soft delete by flipping `is_active` to false; 404 (`none`) if absent. -/
def delete_api_key (db : DB) (current_user : UserRec) (api_key_id : Nat) :
    Except PyError (Option DB) := do
  let rows := db.apiKeys.filter (fun k => k.id == api_key_id && k.user_id == current_user.id)
  match ← scalar_one_or_none rows with
  | none => return none
  | some k =>
    let k2 := { k with is_active := false }
    return some { db with apiKeys := db.apiKeys.map (fun r => if r == k then k2 else r) }

/-- One scheduling unit of a concurrent run of `check_rate_limit` calls for a
single identity: `chk r` is request `r`'s atomic pipelined block
(remove-expired / count / add / set-expiry, `rate_limit.py` lines 111-125),
and `cleanup r` is the separate `zrem` round trip (line 131) that a rejected
request performs afterwards. -/
inductive RLEvent
  | chk (r : Nat)
  | cleanup (r : Nat)
deriving DecidableEq, Repr

/-- State of a concurrent run: the backend sorted set for the identity's key,
and which requests have been admitted or rejected so far. -/
structure ConcState where
  zset : List ℤ
  admitted : List Nat
  rejected : List Nat
deriving DecidableEq, Repr

/-- Interleaving semantics of concurrent `check_rate_limit` calls with quota
`q`, request `r` executing at instant `times r`: each event runs the same
backend operations `check_rate_limit` issues, as one atomic step. -/
def concStep (q : Int) (times : Nat → ℤ) (s : ConcState) : RLEvent → ConcState
  | .chk r =>
    let now := times r
    let window_start := now - 60
    let afterRemove := zremrangebyscore s.zset 0 window_start
    let current_count : Int := afterRemove.length
    let afterAdd := zadd afterRemove now
    if current_count > q then
      { s with zset := afterAdd, rejected := s.rejected ++ [r] }
    else
      { s with zset := afterAdd, admitted := s.admitted ++ [r] }
  | .cleanup r => { s with zset := zrem s.zset (times r) }

/-- Run an interleaving from the empty backend state. -/
def concRun (q : Int) (times : Nat → ℤ) (evs : List RLEvent) : ConcState :=
  evs.foldl (concStep q times) ⟨[], [], []⟩

/-- Number of `chk` events (concurrent `check_rate_limit` calls) in a trace. -/
def countChk : List RLEvent → Nat
  | [] => 0
  | .chk _ :: evs => countChk evs + 1
  | .cleanup _ :: evs => countChk evs

/-- The request ids occurring in a trace. -/
def reqs : List RLEvent → List Nat
  | [] => []
  | .chk r :: evs => r :: reqs evs
  | .cleanup r :: evs => r :: reqs evs

/-- Well-formed interleavings: each request's atomic block runs at most once
(`chk r` only for a request not yet decided), and the separate `zrem` round
trip runs only for a request that was rejected. -/
inductive ValidTrace (q : Int) (times : Nat → ℤ) : ConcState → List RLEvent → Prop
  | nil {s} : ValidTrace q times s []
  | chk {s r evs} : r ∉ s.admitted → r ∉ s.rejected →
      ValidTrace q times (concStep q times s (.chk r)) evs →
      ValidTrace q times s (.chk r :: evs)
  | cleanup {s r evs} : r ∈ s.rejected →
      ValidTrace q times (concStep q times s (.cleanup r)) evs →
      ValidTrace q times s (.cleanup r :: evs)

/-- Invariant of a concurrent run relative to the request universe `R`:
decided requests lie in `R`, no request is decided twice, the sorted set
holds exactly timestamps of decided requests and at least every admitted
request's timestamp without duplicates, and at most — and once any request
has been rejected, exactly — `q + 1` requests are admitted. -/
structure ConcInv (q : Nat) (times : Nat → ℤ) (R : List Nat) (s : ConcState) : Prop where
  doneR : ∀ r : Nat, (r ∈ s.admitted ∨ r ∈ s.rejected) → r ∈ R
  nodupA : s.admitted.Nodup
  disj : ∀ r ∈ s.admitted, r ∉ s.rejected
  zsetChar : ∀ t ∈ s.zset, ∃ r : Nat, (r ∈ s.admitted ∨ r ∈ s.rejected) ∧ times r = t
  zsetFullA : ∀ r ∈ s.admitted, times r ∈ s.zset
  zsetNodup : s.zset.Nodup
  cap : s.admitted.length ≤ q + 1
  rejFull : s.rejected ≠ [] → s.admitted.length = q + 1

/-- The interleaving exercised by the evaluation theorem for the concurrency
claim: three checks racing, then the rejected request's cleanup. -/
def demoTrace : List RLEvent := [.chk 0, .chk 1, .chk 2, .cleanup 2]

deriving instance DecidableEq for Except

/-! Concrete instances used by the evaluation theorems and the witnesses. -/

/-- A stand-in for the external sha256-hexdigest prefixing (only the bearer
identity key uses it; its value is irrelevant to the claims). -/
def demoSha : String → String := fun _ => "deadbeefdeadbeef"

/-- A healthy connection with an empty backend, as after a successful
`startup` — in particular, no `apikey:config:*` cache entry exists (nothing
in the repository ever writes one). -/
def freshConn : RedisConn :=
  { healthy := true, zsets := fun _ => [], strings := fun _ => none }

/-- A connection whose every round trip raises. -/
def badConn : RedisConn := { freshConn with healthy := false }

/-- A demonstration full API key. -/
def demoFullKey : String := "ldwsk-abcdefghijklmnop"

/-- Its stored row: configured quota 5, active. -/
def demoKeyRow : APIKey :=
  { id := 1, name := "k", keyPrefix := "ldwsk-abcdef",
    key_hash := bcryptHashpw demoFullKey, access_level := "read", rate_limit := 5,
    user_id := 7, is_active := true, last_used_at := none }

/-- The same row revoked. -/
def demoKeyRowRevoked : APIKey := { demoKeyRow with is_active := false }

/-- The key's owner. -/
def demoUser : UserRec := { id := 7, is_active := true }

/-- A database holding the active key and its owner. -/
def demoDb : DB := { apiKeys := [demoKeyRow], users := [demoUser] }

/-- A database holding the revoked key and its owner. -/
def demoDbRevoked : DB := { apiKeys := [demoKeyRowRevoked], users := [demoUser] }

/-- A request carrying the demonstration API key. -/
def apiReq : Request :=
  { apiKeyHeader := some demoFullKey, authHeader := none, forwardedFor := none,
    clientHost := some "1.2.3.4" }

/-- A request authenticated by bearer token only. -/
def bearerReq : Request :=
  { apiKeyHeader := none, authHeader := some "Bearer sometoken", forwardedFor := none,
    clientHost := some "1.2.3.4" }

/-- An anonymous request. -/
def anonReq : Request :=
  { apiKeyHeader := none, authHeader := none, forwardedFor := none,
    clientHost := some "9.9.9.9" }

/-- A connection on which some external agent has filled the config cache for
the demonstration key with the string "2". -/
def conn2 : RedisConn :=
  { freshConn with
    strings := fun k => if k = "apikey:config:ldwsk-abcdef" then some "2" else none }

/-- Like `conn2` with cached value "5" (the row's configured quota). -/
def conn5 : RedisConn :=
  { freshConn with
    strings := fun k => if k = "apikey:config:ldwsk-abcdef" then some "5" else none }

/-- A concrete 32-character random part, as drawn by
`secrets.token_urlsafe(24)`. -/
def demoRandomPart : String := "0123456789abcdefghijklmnopqrstuv"

/-- The JWT-decode stand-in used by concrete instances: recognizes one token,
mapping it to the demonstration user's id. -/
def demoJwtDecode : String → Option Nat :=
  fun t => if t = "valid-token" then some 7 else none

/-- Sequential `dispatch` runs for one identity, threading the Redis state. -/
def runDispatches (sha : String → String) (st : Settings) (redis : Option RedisConn)
    (req : Request) (upstream : Int) :
    List ℤ → List DispatchOutcome × Option RedisConn
  | [] => ([], redis)
  | t :: ts =>
    let (o, r2) := dispatch sha st redis req t upstream
    let (rest, r3) := runDispatches sha st r2 req upstream ts
    (o :: rest, r3)

/-- C7: access gating succeeds iff the caller's level is at least the
required one under `read(1) < write(2) < admin(3)`; a write-level identity
passes read and write but not admin, an admin-level identity passes all
three, and a JWT-authenticated caller (no API-key row) is granted whatever
the endpoint requires. -/
theorem access_gate_iff_and_monotone :
    (∀ l r : AccessLevel, has_access_level l r = true ↔ levelRank r ≤ levelRank l)
    ∧ (levelRank .read = 1 ∧ levelRank .write = 2 ∧ levelRank .admin = 3)
    ∧ (has_access_level .write .read = true ∧ has_access_level .write .write = true
       ∧ has_access_level .write .admin = false)
    ∧ (∀ r : AccessLevel, has_access_level .admin r = true)
    ∧ (∀ (level : AccessLevel) (u : UserRec), require_access_check level u none = .granted u) := by
  refine ⟨?_, ⟨rfl, rfl, rfl⟩, ⟨rfl, rfl, rfl⟩, ?_, ?_⟩
  · intro l r
    cases l <;> cases r <;> simp [has_access_level, levelRank]
  · intro r
    cases r <;> rfl
  · intro level u
    rfl

/-- C6: the claim says a malformed (non-bcrypt) stored hash makes
`verifySecret` return false without throwing; in the code `verify_api_key`
(and `verify_password`) call `bcrypt.checkpw` with no exception handling, and
`bcrypt.checkpw` raises `ValueError` on a malformed salt — contradicting the
repository's own test `test_verify_api_key_failure`, which asserts
`verify_api_key(full_key, "$2b$04$invalidhash") is False`. Evaluation at that
failing input: the call raises instead of returning `.ok false`. -/
theorem verify_api_key_malformed_hash_raises :
    verify_api_key "ldwsk-abcdefghijklmnop" "$2b$04$invalidhash" = .error .valueError
    ∧ verify_password "secret" "not-a-bcrypt-hash" = .error .valueError
    ∧ (Except.error PyError.valueError ≠ (Except.ok false : Except PyError Bool)) := by
  refine ⟨rfl, rfl, ?_⟩
  intro h
  exact Except.noConfusion h

/-- C1: the claim says the first Q requests in a window are admitted with
remaining Q - i and the (Q+1)-th is rejected with 429; the code compares the
count taken *before* inserting the current timestamp with a strict `>`, so it
admits Q+1 requests, reports remaining from Q down to 0, and rejects only the
(Q+2)-th — contradicting the repository's own test `test_rate_limit_exceeded`
(quota 2, third request expected 429). Evaluation at quota 2 with four
sequential requests in one window, both at the `check_rate_limit` level and
at the `dispatch` level (quota 2 cached for the key): the third request is
admitted with remaining 0 and only the fourth is rejected (with
`Retry-After` 57 = reset 1060 - now 1003). -/
theorem rate_limit_admits_quota_plus_one :
    (runChecks demoSha (some freshConn) apiReq 2 [1000, 1001, 1002, 1003]).1 =
      [.ok ⟨true, 2, 2, 1060⟩, .ok ⟨true, 1, 2, 1060⟩, .ok ⟨true, 0, 2, 1060⟩,
       .ok ⟨false, 0, 2, 1060⟩]
    ∧ (runDispatches demoSha ⟨true, 1000⟩ (some conn2) apiReq 200 [1000, 1001, 1002, 1003]).1 =
      [.response 200 2 2 1060, .response 200 2 1 1060, .response 200 2 0 1060,
       .rateLimited 57] := by
  exact ⟨rfl, rfl⟩

theorem zset_len_eq_admitted {q : Nat} {times : Nat → ℤ} {R : List Nat} {s : ConcState}
    (hinj : ∀ r ∈ R, ∀ r2 ∈ R, times r = times r2 → r = r2)
    (inv : ConcInv q times R s) (hrej : s.rejected = []) :
    s.zset.length = s.admitted.length := by
  have hmapnd : (s.admitted.map times).Nodup := by
    refine inv.nodupA.map_on ?_
    intro x hx y hy hxy
    exact hinj x (inv.doneR x (Or.inl hx)) y (inv.doneR y (Or.inl hy)) hxy
  have hset : s.zset.toFinset = (s.admitted.map times).toFinset := by
    ext t
    simp only [List.mem_toFinset, List.mem_map]
    constructor
    · intro ht
      obtain ⟨r, hr, hrt⟩ := inv.zsetChar t ht
      rw [hrej] at hr
      simp at hr
      exact ⟨r, hr, hrt⟩
    · rintro ⟨r, hr, rfl⟩
      exact inv.zsetFullA r hr
  calc s.zset.length = s.zset.toFinset.card := (List.toFinset_card_of_nodup inv.zsetNodup).symm
    _ = (s.admitted.map times).toFinset.card := by rw [hset]
    _ = (s.admitted.map times).length := List.toFinset_card_of_nodup hmapnd
    _ = s.admitted.length := List.length_map _ _

theorem zset_len_ge_admitted {q : Nat} {times : Nat → ℤ} {R : List Nat} {s : ConcState}
    (hinj : ∀ r ∈ R, ∀ r2 ∈ R, times r = times r2 → r = r2)
    (inv : ConcInv q times R s) :
    s.admitted.length ≤ s.zset.length := by
  have hmapnd : (s.admitted.map times).Nodup := by
    refine inv.nodupA.map_on ?_
    intro x hx y hy hxy
    exact hinj x (inv.doneR x (Or.inl hx)) y (inv.doneR y (Or.inl hy)) hxy
  have hsub : (s.admitted.map times).toFinset ⊆ s.zset.toFinset := by
    intro t ht
    simp only [List.mem_toFinset, List.mem_map] at ht ⊢
    obtain ⟨r, hr, rfl⟩ := ht
    exact inv.zsetFullA r hr
  calc s.admitted.length = (s.admitted.map times).length := (List.length_map _ _).symm
    _ = (s.admitted.map times).toFinset.card := (List.toFinset_card_of_nodup hmapnd).symm
    _ ≤ s.zset.toFinset.card := Finset.card_le_card hsub
    _ ≤ s.zset.length := s.zset.toFinset_card_le

theorem chk_filter_noop {q : Nat} {times : Nat → ℤ} {R : List Nat} {s : ConcState} {r : Nat}
    (hwin : ∀ a ∈ R, ∀ b ∈ R, times a - times b < 60)
    (inv : ConcInv q times R s) (hrR : r ∈ R) :
    zremrangebyscore s.zset 0 (times r - 60) = s.zset := by
  unfold zremrangebyscore
  rw [List.filter_eq_self]
  intro t ht
  obtain ⟨r2, hr2, rfl⟩ := inv.zsetChar t ht
  have h2R : r2 ∈ R := inv.doneR r2 hr2
  have hlt : times r - times r2 < 60 := hwin r hrR r2 h2R
  simp only [Bool.not_eq_true', Bool.and_eq_false_iff, decide_eq_false_iff_not, not_le]
  right
  omega

theorem chk_fresh {q : Nat} {times : Nat → ℤ} {R : List Nat} {s : ConcState} {r : Nat}
    (hinj : ∀ a ∈ R, ∀ b ∈ R, times a = times b → a = b)
    (inv : ConcInv q times R s) (hrR : r ∈ R)
    (hna : r ∉ s.admitted) (hnr : r ∉ s.rejected) :
    times r ∉ s.zset := by
  intro hmem
  obtain ⟨r2, hr2, heq⟩ := inv.zsetChar (times r) hmem
  have h2R : r2 ∈ R := inv.doneR r2 hr2
  have : r2 = r := hinj r2 h2R r hrR heq
  subst this
  cases hr2 with
  | inl h => exact hna h
  | inr h => exact hnr h

theorem concRun_go {q : Nat} {times : Nat → ℤ} {R : List Nat}
    (hinj : ∀ a ∈ R, ∀ b ∈ R, times a = times b → a = b)
    (hwin : ∀ a ∈ R, ∀ b ∈ R, times a - times b < 60) :
    ∀ {evs : List RLEvent} {s : ConcState},
      ValidTrace (q : Int) times s evs →
      (∀ r ∈ reqs evs, r ∈ R) →
      ConcInv q times R s →
      (evs.foldl (concStep (q : Int) times) s).admitted.length =
        min (s.admitted.length + countChk evs) (q + 1) := by
  intro evs s hv
  induction hv with
  | nil =>
    intro _ inv
    simp only [List.foldl_nil, countChk, Nat.add_zero]
    exact (Nat.min_eq_left inv.cap).symm
  | @chk s r evs hna hnr hv ih =>
    intro hreqs inv
    have hrR : r ∈ R := hreqs r (by simp [reqs])
    have hreqs' : ∀ a ∈ reqs evs, a ∈ R := fun a ha => hreqs a (by simp [reqs, ha])
    have hnoop := chk_filter_noop hwin inv hrR
    have hfresh := chk_fresh hinj inv hrR hna hnr
    have hzadd : zadd s.zset (times r) = s.zset ++ [times r] := by
      unfold zadd
      rw [if_neg hfresh]
    by_cases hc : ((s.zset.length : Int) > (q : Int))
    · -- reject branch
      have hstep : concStep (q : Int) times s (.chk r) =
          { s with zset := s.zset ++ [times r], rejected := s.rejected ++ [r] } := by
        simp only [concStep]
        rw [hnoop, hzadd, if_pos hc]
      have hAcap : s.admitted.length = q + 1 := by
        by_cases hrej : s.rejected = []
        · have hlen := zset_len_eq_admitted hinj inv hrej
          have := inv.cap
          omega
        · exact inv.rejFull hrej
      have inv2 : ConcInv q times R
          { s with zset := s.zset ++ [times r], rejected := s.rejected ++ [r] } := by
        refine ⟨?_, inv.nodupA, ?_, ?_, ?_, ?_, inv.cap, fun _ => hAcap⟩
        · intro a ha
          rcases ha with h | h
          · exact inv.doneR a (Or.inl h)
          · rcases List.mem_append.mp h with h2 | h2
            · exact inv.doneR a (Or.inr h2)
            · simp at h2
              exact h2 ▸ hrR
        · intro a ha hmem
          rcases List.mem_append.mp hmem with h2 | h2
          · exact inv.disj a ha h2
          · simp at h2
            exact hna (h2 ▸ ha)
        · intro t ht
          rcases List.mem_append.mp ht with h2 | h2
          · obtain ⟨r2, hr2, rfl⟩ := inv.zsetChar t h2
            exact ⟨r2, by rcases hr2 with h | h
                          · exact Or.inl h
                          · exact Or.inr (List.mem_append.mpr (Or.inl h)), rfl⟩
          · simp at h2
            exact ⟨r, Or.inr (List.mem_append.mpr (Or.inr (by simp))), h2.symm⟩
        · intro a ha
          exact List.mem_append.mpr (Or.inl (inv.zsetFullA a ha))
        · rw [List.nodup_append]
          exact ⟨inv.zsetNodup, List.nodup_singleton _, by
            intro t ht hmem
            simp at hmem
            exact hfresh (hmem ▸ ht)⟩
      have hfin := ih hreqs' (by rw [hstep]; exact inv2)
      rw [hstep] at hfin
      have hproj : ({ s with zset := s.zset ++ [times r], rejected := s.rejected ++ [r] } : ConcState).admitted = s.admitted := rfl
      rw [hproj] at hfin
      rw [List.foldl_cons, hstep]
      simp only [countChk]
      rw [hfin]
      omega
    · -- admit branch
      have hrej : s.rejected = [] := by
        by_contra hrej
        have hA : s.admitted.length = q + 1 := inv.rejFull hrej
        have hge := zset_len_ge_admitted hinj inv
        omega
      have hAle : s.admitted.length ≤ q := by
        have hlen := zset_len_eq_admitted hinj inv hrej
        omega
      have hstep : concStep (q : Int) times s (.chk r) =
          { s with zset := s.zset ++ [times r], admitted := s.admitted ++ [r] } := by
        simp only [concStep]
        rw [hnoop, hzadd, if_neg hc]
      have inv2 : ConcInv q times R
          { s with zset := s.zset ++ [times r], admitted := s.admitted ++ [r] } := by
        refine ⟨?_, ?_, ?_, ?_, ?_, ?_, ?_, ?_⟩
        · intro a ha
          rcases ha with h | h
          · rcases List.mem_append.mp h with h2 | h2
            · exact inv.doneR a (Or.inl h2)
            · simp at h2
              exact h2 ▸ hrR
          · exact inv.doneR a (Or.inr h)
        · rw [List.nodup_append]
          exact ⟨inv.nodupA, List.nodup_singleton _, by
            intro a ha hmem
            simp at hmem
            exact hna (hmem ▸ ha)⟩
        · intro a ha hmem
          rcases List.mem_append.mp ha with h2 | h2
          · exact inv.disj a h2 hmem
          · simp at h2
            exact hnr (h2 ▸ hmem)
        · intro t ht
          rcases List.mem_append.mp ht with h2 | h2
          · obtain ⟨r2, hr2, rfl⟩ := inv.zsetChar t h2
            exact ⟨r2, by rcases hr2 with h | h
                          · exact Or.inl (List.mem_append.mpr (Or.inl h))
                          · exact Or.inr h, rfl⟩
          · simp at h2
            exact ⟨r, Or.inl (List.mem_append.mpr (Or.inr (by simp))), h2.symm⟩
        · intro a ha
          rcases List.mem_append.mp ha with h2 | h2
          · exact List.mem_append.mpr (Or.inl (inv.zsetFullA a h2))
          · simp at h2
            subst h2
            exact List.mem_append.mpr (Or.inr (by simp))
        · rw [List.nodup_append]
          exact ⟨inv.zsetNodup, List.nodup_singleton _, by
            intro t ht hmem
            simp at hmem
            exact hfresh (hmem ▸ ht)⟩
        · rw [List.length_append]
          simp only [List.length_singleton]
          omega
        · intro h
          exact absurd hrej (by simpa using h)
      have hfin := ih hreqs' (by rw [hstep]; exact inv2)
      rw [hstep] at hfin
      have hproj : ({ s with zset := s.zset ++ [times r], admitted := s.admitted ++ [r] } : ConcState).admitted = s.admitted ++ [r] := rfl
      rw [hproj, List.length_append, List.length_singleton] at hfin
      rw [List.foldl_cons, hstep]
      simp only [countChk]
      rw [hfin]
      omega
  | @cleanup s r evs hmem hv ih =>
    intro hreqs inv
    have hrR : r ∈ R := hreqs r (by simp [reqs])
    have hreqs' : ∀ a ∈ reqs evs, a ∈ R := fun a ha => hreqs a (by simp [reqs, ha])
    have hstep : concStep (q : Int) times s (.cleanup r) =
        { s with zset := zrem s.zset (times r) } := rfl
    have inv2 : ConcInv q times R { s with zset := zrem s.zset (times r) } := by
      refine ⟨inv.doneR, inv.nodupA, inv.disj, ?_, ?_, ?_, inv.cap, inv.rejFull⟩
      · intro t ht
        have ht2 : t ∈ s.zset := List.mem_of_mem_filter ht
        exact inv.zsetChar t ht2
      · intro a ha
        have h1 : times a ∈ s.zset := inv.zsetFullA a ha
        have hne : times a ≠ times r := by
          intro heq
          have : a = r := hinj a (inv.doneR a (Or.inl ha)) r hrR heq
          exact inv.disj a ha (this ▸ hmem)
        unfold zrem
        rw [List.mem_filter]
        exact ⟨h1, by simpa using hne⟩
      · exact inv.zsetNodup.filter _
    have hfin := ih hreqs' (by rw [hstep]; exact inv2)
    rw [hstep] at hfin
    have hproj : ({ s with zset := zrem s.zset (times r) } : ConcState).admitted = s.admitted := rfl
    rw [hproj] at hfin
    rw [List.foldl_cons, hstep]
    simp only [countChk]
    exact hfin

theorem concRun_admitted_min (q : Nat) (times : Nat → ℤ) (evs : List RLEvent)
    (hv : ValidTrace (q : Int) times ⟨[], [], []⟩ evs)
    (hinj : ∀ a ∈ reqs evs, ∀ b ∈ reqs evs, times a = times b → a = b)
    (hwin : ∀ a ∈ reqs evs, ∀ b ∈ reqs evs, times a - times b < 60) :
    (concRun (q : Int) times evs).admitted.length = min (countChk evs) (q + 1) := by
  have inv0 : ConcInv q times (reqs evs) ⟨[], [], []⟩ := by
    refine ⟨?_, ?_, ?_, ?_, ?_, ?_, ?_, ?_⟩ <;> simp
  have := concRun_go hinj hwin hv (fun r hr => hr) inv0
  simpa [concRun] using this

/-- The demonstration interleaving is well-formed. -/
theorem demoTrace_valid : ValidTrace (1 : Int) (fun r => 1000 + r) ⟨[], [], []⟩ demoTrace := by
  apply ValidTrace.chk (by decide) (by decide)
  apply ValidTrace.chk (by decide) (by decide)
  apply ValidTrace.chk (by decide) (by decide)
  apply ValidTrace.cleanup (by decide)
  exact ValidTrace.nil

/-- C9: the claim says N concurrent checks with quota Q < N admit exactly Q
and reject N - Q. Because the count the pipeline compares is taken before the
current timestamp is inserted and checked with a strict `>`, that is off by
one: the first two conjuncts evaluate the interleaving of three concurrent
checks with quota 1 in which requests 0 and 1 are both admitted (two
admissions, not one) and request 2 is rejected, its separate `zrem` cleanup
running after the other pipelines. The last conjunct is the law behind it:
in every well-formed interleaving of checks with distinct in-window
timestamps, exactly `min N (Q+1)` requests are admitted — the atomic
remove/count/insert/expire block does prevent any further over-admission,
but one extra request beyond the quota is always admitted. -/
theorem concurrent_checks_admit_quota_plus_one :
    concRun 1 (fun r => 1000 + r) demoTrace = ⟨[1000, 1001], [0, 1], [2]⟩
    ∧ (concRun 1 (fun r => 1000 + r) demoTrace).admitted.length = 2
    ∧ (∀ (q : Nat) (times : Nat → ℤ) (evs : List RLEvent),
        ValidTrace (q : Int) times ⟨[], [], []⟩ evs →
        (∀ a ∈ reqs evs, ∀ b ∈ reqs evs, times a = times b → a = b) →
        (∀ a ∈ reqs evs, ∀ b ∈ reqs evs, times a - times b < 60) →
        (concRun (q : Int) times evs).admitted.length = min (countChk evs) (q + 1)) :=
  ⟨rfl, rfl, concRun_admitted_min⟩

/-- Witness for C9's interleaving law at the demonstration trace: quota 1,
three checks — `min 3 2 = 2` requests admitted. -/
theorem concurrent_checks_admit_quota_plus_one_witness :
    (concRun ((1 : Nat) : Int) (fun r => 1000 + r) demoTrace).admitted.length =
      min (countChk demoTrace) (1 + 1) :=
  concurrent_checks_admit_quota_plus_one.2.2 1 (fun r => 1000 + r) demoTrace
    demoTrace_valid (by decide) (by decide)

/-- C4: the claim says an API-key request is limited by the key's configured
`requestsPerMinute` (possibly via a short-TTL cache); the middleware only
reads the `apikey:config:<prefix>` Redis cache, which no code in the
repository ever writes, and on a cache miss falls back to the service
default with no database lookup (contradicting its own comment "Look up API
key rate limit from database"). Evaluation: a request with the key whose
stored row configures `rate_limit = 5` is limited at the default 1000 on a
fresh backend; only if some external agent had cached "5" would 5 be used;
bearer-token and anonymous requests use the default, as claimed. -/
theorem dispatch_ignores_configured_quota :
    demoKeyRow.rate_limit = 5
    ∧ apiReq.apiKeyHeader = some demoFullKey
    ∧ demoFullKey.take 12 = demoKeyRow.keyPrefix
    ∧ (dispatch demoSha ⟨true, 1000⟩ (some freshConn) apiReq 1000 200).1 =
        .response 200 1000 1000 1060
    ∧ (dispatch demoSha ⟨true, 1000⟩ (some conn5) apiReq 1000 200).1 =
        .response 200 5 5 1060
    ∧ (dispatch demoSha ⟨true, 1000⟩ (some freshConn) bearerReq 1000 200).1 =
        .response 200 1000 1000 1060
    ∧ (dispatch demoSha ⟨true, 1000⟩ (some freshConn) anonReq 1000 200).1 =
        .response 200 1000 1000 1060 := by
  exact ⟨rfl, rfl, rfl, rfl, rfl, rfl, rfl⟩

/-- C2 counterexample: the claim says a failed backend round trip during the
rate-limit check still admits the request and never yields a 5xx; on an
established connection whose round trips fail, `check_rate_limit` has no
exception handling, so `dispatch` propagates the error instead of completing
the request. -/
theorem backend_error_mid_check_propagates :
    dispatch demoSha ⟨true, 1000⟩ (some badConn) apiReq 1000 200 =
      (.serverError .connectionError, some badConn) := rfl

/-- C2 amended: fail-open holds exactly when no backend connection is
established (`self.redis is None`): the request is then admitted with the
full quota and completes with its normal status; the failed connection
attempt is logged at error level (not warning) by `startup` and the
per-request fallback emits no log at all; an exception on an established
connection's round trip is not caught and surfaces as a server error. -/
theorem fail_open_only_without_connection :
    (∀ (sha : String → String) (st : Settings) (req : Request) (now : ℤ) (up : Int),
      st.RATE_LIMIT_ENABLED = true →
      dispatch sha st none req now up =
        (.response up st.RATE_LIMIT_DEFAULT st.RATE_LIMIT_DEFAULT (pyInt now + 60), none))
    ∧ (∀ conn : RedisConn, startup false conn = (none, .error))
    ∧ LogLevel.error ≠ LogLevel.warning
    ∧ (∀ (sha : String → String) (st : Settings) (req : Request) (now : ℤ) (up : Int)
        (conn : RedisConn), st.RATE_LIMIT_ENABLED = true → conn.healthy = false →
        dispatch sha st (some conn) req now up = (.serverError .connectionError, some conn)) := by
  refine ⟨?_, fun conn => rfl, by decide, ?_⟩
  · intro sha st req now up h
    rcases req with ⟨ak, au, fwd, ch⟩
    cases ak <;> simp [dispatch, h, check_rate_limit]
  · intro sha st req now up conn h hc
    rcases req with ⟨ak, au, fwd, ch⟩
    cases ak <;> simp [dispatch, h, hc, check_rate_limit]

/-- Witness for C2's amended theorem at concrete inputs: a request on a
never-established connection is admitted with the default quota, a failed
`startup` logs at error level, and a failing round trip on an established
connection surfaces as a server error. -/
theorem fail_open_only_without_connection_witness :
    dispatch demoSha ⟨true, 1000⟩ none apiReq 1000 200 =
      (.response 200 1000 1000 1060, none)
    ∧ startup false freshConn = (none, .error)
    ∧ dispatch demoSha ⟨true, 1000⟩ (some badConn) apiReq 1000 200 =
      (.serverError .connectionError, some badConn) :=
  ⟨fail_open_only_without_connection.1 demoSha ⟨true, 1000⟩ apiReq 1000 200 rfl,
   fail_open_only_without_connection.2.1 freshConn,
   fail_open_only_without_connection.2.2.2 demoSha ⟨true, 1000⟩ apiReq 1000 200 badConn rfl rfl⟩

/-- A row returned by a successful `scalar_one_or_none` is a member of the
queried row list. -/
theorem scalar_one_or_none_mem {α : Type} {l : List α} {a : α}
    (h : scalar_one_or_none l = .ok (some a)) : a ∈ l := by
  match l with
  | [] => exact Option.noConfusion (Except.ok.inj h)
  | [b] =>
    have hba : b = a := Option.some.inj (Except.ok.inj h)
    exact hba ▸ List.mem_singleton_self b
  | b :: c :: rest => exact Except.noConfusion h

/-- C3: a deactivated API-key record never authenticates. First conjunct: any
record that `validate_api_key` returns a user for was an active row at lookup
(the lookup filters on `is_active == True` and the `last_used_at` refresh
preserves the flag), so a record with `active = false` can never be the
authenticated one. Second conjunct: concretely, the revoked demonstration row
rejects even its correct full secret (the candidate matches the stored
hash). -/
theorem validate_api_key_never_authenticates_inactive :
    (∀ (db : DB) (cand : String) (now : ℤ) (u : UserRec) (k2 : APIKey) (db2 : DB),
      validate_api_key db cand now = .ok (some (u, k2), db2) → k2.is_active = true)
    ∧ validate_api_key demoDbRevoked demoFullKey 1000 = .ok (none, demoDbRevoked) := by
  refine ⟨?_, rfl⟩
  intro db cand now u k2 db2 h
  unfold validate_api_key at h
  simp only [bind, Except.bind, verify_api_key] at h
  split at h
  · exact Except.noConfusion h
  · rename_i v hK
    split at h
    · injection h with h1
      injection h1 with ha hb
      exact Option.noConfusion ha
    · rename_i k
      split at h
      · exact Except.noConfusion h
      · rename_i b hB
        split at h
        · injection h with h1
          injection h1 with ha hb
          exact Option.noConfusion ha
        · split at h
          · exact Except.noConfusion h
          · rename_i v2 hU
            split at h
            · injection h with h1
              injection h1 with ha hb
              exact Option.noConfusion ha
            · rename_i u3
              injection h with h1
              injection h1 with ha hb
              injection ha with hc
              injection hc with hu hk
              rw [← hk]
              have hfilt := List.of_mem_filter (scalar_one_or_none_mem hK)
              simp only [Bool.and_eq_true] at hfilt
              exact hfilt.2

/-- Witness for C3 at a concrete input: validation of the correct secret
against the active demonstration database succeeds, and the theorem applied
to that successful run certifies the authenticated record is active. -/
theorem validate_api_key_never_authenticates_inactive_witness :
    validate_api_key demoDb demoFullKey 1000 =
      .ok (some (demoUser, { demoKeyRow with last_used_at := some 1000 }),
        { demoDb with apiKeys := [{ demoKeyRow with last_used_at := some 1000 }] })
    ∧ ({ demoKeyRow with last_used_at := some (1000 : ℤ) }).is_active = true :=
  ⟨rfl,
    validate_api_key_never_authenticates_inactive.1 demoDb demoFullKey 1000 demoUser
      { demoKeyRow with last_used_at := some 1000 }
      { demoDb with apiKeys := [{ demoKeyRow with last_used_at := some 1000 }] } rfl⟩

/-- C5: credential resolution is first-match-wins on the API-key header.
First conjunct: when an API-key header is present and its validation fails
(no active row for the prefix, or hash verification fails — both are the
`validate_api_key ... = none` outcome), `get_current_auth` raises the 401
`credentials_exception` even if the same request carries a bearer token that
would resolve to a valid active user. Second conjunct: the bearer token is
consulted when no API-key header is present. -/
theorem get_current_auth_tries_api_key_first :
    (∀ (jwtDecodeSub : String → Option Nat) (db : DB) (tok akv : String) (now : ℤ)
      (db2 : DB) (u : UserRec),
      akv ≠ "" →
      validate_api_key db akv now = .ok (none, db2) →
      get_current_user_jwt jwtDecodeSub db tok = some u →
      get_current_auth jwtDecodeSub db (some tok) (some akv) now = .ok (.unauthorized, db2))
    ∧ (∀ (jwtDecodeSub : String → Option Nat) (db : DB) (tok : String) (now : ℤ)
        (u : UserRec),
      tok ≠ "" →
      get_current_user_jwt jwtDecodeSub db tok = some u →
      get_current_auth jwtDecodeSub db (some tok) none now = .ok (.success u none, db)) := by
  constructor
  · intro jwtD db tok akv now db2 u hak hval hjwt
    have hne : (akv == "") = false := by simpa using hak
    simp [get_current_auth, truthy, hne, hval, bind, Except.bind, pure, Except.pure]
  · intro jwtD db tok now u htok hjwt
    have hne : (tok == "") = false := by simpa using htok
    simp [get_current_auth, truthy, hne, hjwt, pure, Except.pure]

/-- Witness for C5 at a concrete input: a request carrying both an unknown
API key and a bearer token that resolves to the active demonstration user is
rejected 401 by the API-key branch; the same token alone authenticates. -/
theorem get_current_auth_tries_api_key_first_witness :
    get_current_user_jwt demoJwtDecode demoDb "valid-token" = some demoUser
    ∧ get_current_auth demoJwtDecode demoDb (some "valid-token")
        (some "ldwsk-zzzzzzzzzzzzzzzz") 1000 = .ok (.unauthorized, demoDb)
    ∧ get_current_auth demoJwtDecode demoDb (some "valid-token") none 1000 =
        .ok (.success demoUser none, demoDb) :=
  ⟨rfl,
    get_current_auth_tries_api_key_first.1 demoJwtDecode demoDb "valid-token"
      "ldwsk-zzzzzzzzzzzzzzzz" 1000 demoDb demoUser (by decide) rfl rfl,
    get_current_auth_tries_api_key_first.2 demoJwtDecode demoDb "valid-token" 1000
      demoUser (by decide) rfl⟩

/-- Verification against a hash produced by the (idealized) bcrypt model is
exact-match comparison of the candidate with the hashed secret. -/
theorem bcryptCheckpw_hashpw (c s : String) :
    bcryptCheckpw c (bcryptHashpw s) = .ok (c == s) := by
  unfold bcryptCheckpw bcryptHashpw
  have hd : (BCRYPT_TAG ++ s).1 = BCRYPT_TAG.1 ++ s.1 := rfl
  rw [hd, @List.take_left' _ BCRYPT_TAG.1 s.1 7 (by decide)]
  rw [if_pos rfl]
  rw [@List.drop_left' _ BCRYPT_TAG.1 s.1 7 (by decide)]

/-- Overwriting position `i` of a character list with a character different
from the one stored there yields a different list. -/
theorem set_ne_of_getD_ne {l : List Char} {i : Nat} {c : Char}
    (hi : i < l.length) (hne : c ≠ l.getD i c) : l.set i c ≠ l := by
  intro he
  apply hne
  have hlen : i < (l.set i c).length := by rw [List.length_set]; exact hi
  have h1 : (l.set i c)[i] = c := List.getElem_set_self hlen
  simp only [he] at h1
  rw [List.getD_eq_getElem l c hi]
  exact h1.symm

/-- The characters of the generated key prefix are the first 12 characters of
tag-plus-randomness. -/
theorem gen_pfx_data (rp : String) :
    (generate_api_key rp).2.1.1 = (API_KEY_PREFIX.1 ++ rp.1).take 12 := by
  have h1 : (generate_api_key rp).2.1.1 = ((API_KEY_PREFIX ++ rp).take 12).1 := rfl
  rw [h1, String.data_take]
  rfl

/-- C8: for a generated triple (full key, prefix, hash) with the 32 characters
of randomness `secrets.token_urlsafe(24)` provides: the full secret verifies
against the hash; any other candidate — in particular any single-character
mutation of the full secret (position `i` overwritten with a character
different from the one stored there) — fails verification; and the prefix is
exactly the 12-character leading substring of the full secret, beginning with
the `ldwsk-` scheme tag. -/
theorem generate_api_key_spec (rp : String) (h32 : rp.length = 32) :
    (generate_api_key rp).1 = API_KEY_PREFIX ++ rp
    ∧ verify_api_key (API_KEY_PREFIX ++ rp) (generate_api_key rp).2.2 = .ok true
    ∧ (∀ cand : String, cand ≠ API_KEY_PREFIX ++ rp →
        verify_api_key cand (generate_api_key rp).2.2 = .ok false)
    ∧ (∀ (i : Nat) (c : Char), i < (API_KEY_PREFIX ++ rp).1.length →
        c ≠ (API_KEY_PREFIX ++ rp).1.getD i c →
        verify_api_key ⟨(API_KEY_PREFIX ++ rp).1.set i c⟩ (generate_api_key rp).2.2 = .ok false)
    ∧ (generate_api_key rp).2.1.1 = (generate_api_key rp).1.1.take 12
    ∧ (generate_api_key rp).2.1.1.length = 12
    ∧ (generate_api_key rp).2.1.1.take 6 = API_KEY_PREFIX.1 := by
  have hverify : ∀ cand : String,
      verify_api_key cand (generate_api_key rp).2.2 = .ok (cand == API_KEY_PREFIX ++ rp) := by
    intro cand
    calc verify_api_key cand (generate_api_key rp).2.2
        = bcryptCheckpw cand (bcryptHashpw (API_KEY_PREFIX ++ rp)) := rfl
      _ = .ok (cand == API_KEY_PREFIX ++ rp) :=
        bcryptCheckpw_hashpw cand (API_KEY_PREFIX ++ rp)
  refine ⟨rfl, ?_, ?_, ?_, ?_, ?_, ?_⟩
  · rw [hverify]
    simp
  · intro cand hne
    rw [hverify]
    simp [hne]
  · intro i c hi hne
    rw [hverify]
    have hstr : (⟨(API_KEY_PREFIX ++ rp).1.set i c⟩ : String) ≠ API_KEY_PREFIX ++ rp := by
      intro he
      exact set_ne_of_getD_ne hi hne (congrArg String.data he)
    rw [beq_eq_false_iff_ne.mpr hstr]
  · simp only [generate_api_key, String.data_take]
  · rw [gen_pfx_data, List.length_take, List.length_append]
    have h32' : rp.1.length = 32 := h32
    have h6 : API_KEY_PREFIX.1.length = 6 := by decide
    rw [h32', h6]
    decide
  · rw [gen_pfx_data, List.take_take]
    have hmin : min 6 12 = 6 := by decide
    rw [hmin, @List.take_left' _ API_KEY_PREFIX.1 rp.1 6 (by decide)]

/-- Witness for C8 at the concrete random part: the generated full key
verifies against the generated hash and the prefix has 12 characters. -/
theorem generate_api_key_spec_witness :
    demoRandomPart.length = 32
    ∧ verify_api_key (API_KEY_PREFIX ++ demoRandomPart)
        (generate_api_key demoRandomPart).2.2 = .ok true
    ∧ (generate_api_key demoRandomPart).2.1.1.length = 12 :=
  ⟨by decide, (generate_api_key_spec demoRandomPart (by decide)).2.1,
    (generate_api_key_spec demoRandomPart (by decide)).2.2.2.2.2.1⟩

/-- C10: regenerating an API key by id overwrites `key_prefix` and `key_hash`
with freshly generated values and unconditionally sets `is_active := true` —
so regenerating a previously revoked key silently reactivates it — while
`id`, `name`, `access_level`, `rate_limit`, `user_id` (the map keys the
update leaves untouched) and `last_used_at` are unchanged; the new full key
is returned once in the response. The hypothesis is that the id/owner query
returns exactly the row `k`. -/
theorem regenerate_reactivates_and_preserves
    (db : DB) (cu : UserRec) (kid : Nat) (rp : String) (k : APIKey)
    (hq : db.apiKeys.filter (fun r => r.id == kid && r.user_id == cu.id) = [k]) :
    regenerate_api_key db cu kid rp = .ok (some (
      ⟨k.id, k.name, (generate_api_key rp).2.1, k.access_level, k.rate_limit, true,
        k.last_used_at, (generate_api_key rp).1⟩,
      { db with apiKeys := db.apiKeys.map (fun r => if r == k then
          { k with keyPrefix := (generate_api_key rp).2.1,
                   key_hash := (generate_api_key rp).2.2, is_active := true }
        else r) })) := by
  unfold regenerate_api_key
  rw [hq]
  simp [scalar_one_or_none, bind, Except.bind, pure, Except.pure]

/-- Witness for C10 at a concrete input: the demonstration key is revoked
(`is_active = false`), and regenerating it yields a response and a database
row with `is_active = true` and fresh prefix and hash, everything else
preserved. -/
theorem regenerate_reactivates_and_preserves_witness :
    demoKeyRowRevoked.is_active = false
    ∧ regenerate_api_key demoDbRevoked demoUser 1 demoRandomPart = .ok (some (
        ⟨demoKeyRowRevoked.id, demoKeyRowRevoked.name, (generate_api_key demoRandomPart).2.1,
          demoKeyRowRevoked.access_level, demoKeyRowRevoked.rate_limit, true,
          demoKeyRowRevoked.last_used_at, (generate_api_key demoRandomPart).1⟩,
        { demoDbRevoked with apiKeys := demoDbRevoked.apiKeys.map (fun r =>
            if r == demoKeyRowRevoked then
              { demoKeyRowRevoked with
                  keyPrefix := (generate_api_key demoRandomPart).2.1,
                  key_hash := (generate_api_key demoRandomPart).2.2,
                  is_active := true }
            else r) })) :=
  ⟨rfl,
    regenerate_reactivates_and_preserves demoDbRevoked demoUser 1 demoRandomPart
      demoKeyRowRevoked (by rfl)⟩
